import Mathlib

/-!
Verification of `tools/misc/update_model_index.py` (mmpose).

The Python script is shallowly embedded here.  Python strings are modelled as
`List Char` (`Str`); the filesystem as an association list from paths to file
contents; exceptions as `Option`/`Except`.  All definitions are executable and
structurally recursive, so that concrete runs evaluate by `decide`/`rfl`.
-/

set_option maxRecDepth 10000

/-- Python strings, modelled as character lists. -/
abbrev Str := List Char

/-- Character data of a Lean string literal (used only to write `Str` literals). -/
def S (s : String) : Str := s.data

/-- ASCII uppercase of one character; models `str.upper` on the ASCII input the
script works with. -/
def pyUpperChar (c : Char) : Char :=
  if 'a' ≤ c ∧ c ≤ 'z' then Char.ofNat (c.toNat - 32) else c

/-- ASCII lowercase of one character; models `str.lower` on ASCII input. -/
def pyLowerChar (c : Char) : Char :=
  if 'A' ≤ c ∧ c ≤ 'Z' then Char.ofNat (c.toNat + 32) else c

/-- Models Python `s.upper()`. -/
def upperS (s : Str) : Str := s.map pyUpperChar

/-- Models Python `s.lower()`. -/
def lowerS (s : Str) : Str := s.map pyLowerChar

/-- Models Python `s.capitalize()`: first character uppercased, rest lowercased. -/
def capitalizeS : Str → Str
  | [] => []
  | c :: t => pyUpperChar c :: lowerS t

/-- Python whitespace characters stripped by `str.strip()`. -/
def pyIsSpace (c : Char) : Bool :=
  c = ' ' ∨ c = '\t' ∨ c = '\n' ∨ c = '\x0b' ∨ c = '\x0c' ∨ c = '\r'

/-- Models Python `s.strip()` (whitespace from both ends). -/
def strip (s : Str) : Str :=
  (((s.dropWhile pyIsSpace).reverse).dropWhile pyIsSpace).reverse

/-- Models Python `s.strip(chars)` for a character set `cs`. -/
def stripBothChars (cs : List Char) (s : Str) : Str :=
  (((s.dropWhile (· ∈ cs)).reverse).dropWhile (· ∈ cs)).reverse

/-- Models Python substring membership `pat in s`. -/
def containsSub (pat : Str) (s : Str) : Bool :=
  match s with
  | [] => pat.isEmpty
  | _ :: t => pat.isPrefixOf s || containsSub pat t

/-- Index of the first occurrence of `pat` in `s`
(models `s.find(pat)` / `s.index(pat)`). -/
def idxOfSub (pat : Str) (s : Str) : Option Nat :=
  match s with
  | [] => if pat.isEmpty then some 0 else none
  | _ :: t => if pat.isPrefixOf s then some 0 else (idxOfSub pat t).map (· + 1)

/-- Index of the first occurrence of character `c` in `s`. -/
def idxOfChar (c : Char) (s : Str) : Option Nat :=
  match s with
  | [] => none
  | x :: t => if x = c then some 0 else (idxOfChar c t).map (· + 1)

/-- Models Python `s.split(sep)` for a one-character separator (auxiliary). -/
def splitOnCharAux (c : Char) : Str → Str → List Str
  | [], acc => [acc.reverse]
  | x :: t, acc => if x = c then acc.reverse :: splitOnCharAux c t [] else splitOnCharAux c t (x :: acc)

/-- Models Python `s.split(sep)` for a one-character separator. -/
def splitOnChar (c : Char) (s : Str) : List Str := splitOnCharAux c s []

/-- Join a list of strings with a separator (used to state structured inputs). -/
def joinSep (sep : Str) : List Str → Str
  | [] => []
  | [p] => p
  | p :: q :: r => p ++ sep ++ joinSep sep (q :: r)

/-- Numeric value of a run of decimal digit characters (models `int(digits)`). -/
def natOfDigits (ds : Str) : Nat := ds.foldl (fun a c => a * 10 + (c.toNat - 48)) 0

/-- Models the Python expression `str(int(digits) * 0.01)` as the shortest
decimal rendering of `d / 100`.  For the two-digit runs arising in the theorems
below (e.g. `50 ↦ "0.5"`, `75 ↦ "0.75"`) this agrees with CPython, whose
binary floating point yields the same shortest repr there; for some values
(e.g. `56`) CPython would print a longer repr such as `0.5600000000000001`. -/
def pyTimes001Str (d : Nat) : Str :=
  let q := d / 100
  let rem := d % 100
  let qs := Nat.toDigits 10 q
  if rem = 0 then qs ++ S ".0"
  else if rem % 10 = 0 then qs ++ '.' :: Nat.toDigits 10 (rem / 10)
  else if rem < 10 then qs ++ '.' :: '0' :: Nat.toDigits 10 rem
  else qs ++ '.' :: Nat.toDigits 10 rem

/-! ## `collate_metrics` -/

/-- The fixed metric vocabulary `all_metrics` of `collate_metrics`. -/
def all_metrics : List Str :=
  [S "acc", S "ap", S "ar", S "pck", S "auc", S "3dpck", S "p-3dpck",
   S "3dauc", S "p-3dauc", S "epe", S "nme", S "mpjpe", S "p-mpjpe",
   S "n-mpjpe", S "mean", S "head", S "sho", S "elb", S "wri", S "hip",
   S "knee", S "ank", S "total"]

/-- The header names skipped outright by `collate_metrics`:
`['Arch', 'Input Size', 'ckpt', 'log']`. -/
def reservedCols : List Str := [S "Arch", S "Input Size", S "ckpt", S "log"]

/-- The metrics that get the `@`-threshold digit substitution: `['ap', 'ar']`. -/
def apArMetrics : List Str := [S "ap", S "ar"]

/-- The membership test of `collate_metrics` line 66:
`metric.upper() in key or metric.capitalize() in key`. -/
def matchesMetric (metric key : Str) : Bool :=
  containsSub (upperS metric) key || containsSub (capitalizeS metric) key

/-- The character loop of `collate_metrics` (lines 67-79): drop `<...>` spans,
turn `*` and `_` into spaces, copy everything else.  The Boolean flag records
being inside an unclosed `<...>` span; reaching the end of the string inside a
span models the `IndexError` the Python inner `while` raises there (`none`). -/
def normalizeGo : Bool → Str → Option Str
  | false, [] => some []
  | true, [] => none
  | false, c :: rest =>
    if c = '<' then normalizeGo true rest
    else if c = '*' ∨ c = '_' then (normalizeGo false rest).map (fun t => ' ' :: t)
    else (normalizeGo false rest).map (fun t => c :: t)
  | true, c :: rest => if c = '>' then normalizeGo false rest else normalizeGo true rest

/-- Lines 82-88 of the script: for `ap`/`ar` metrics, replace the first run of
digits `d` by `'@' + str(int(d) * 0.01)`.  (`re.search(r'\d+', s)` finds the
first maximal digit run.) -/
def digitSub (s : Str) : Str :=
  let before := s.takeWhile (fun c => !c.isDigit)
  let rest := s.dropWhile (fun c => !c.isDigit)
  match rest with
  | [] => s
  | _ :: _ =>
    let digits := rest.takeWhile (fun c => c.isDigit)
    let after := rest.dropWhile (fun c => c.isDigit)
    before ++ '@' :: (pyTimes001Str (natOfDigits digits) ++ after)

/-- The loop body of `collate_metrics` over the header cells, carrying the
running column index.  Note that line 80 of the script computes
`re.sub(' +', ' ', used_metric)` but discards the result, so no space
collapsing is embedded.  `none` models the propagated `IndexError` from an
unclosed `<` span in a matched header. -/
def collateGo : List Str → Nat → Option (List Str × List Nat)
  | [], _ => some ([], [])
  | key :: rest, idx =>
    if key ∈ reservedCols then collateGo rest (idx + 1)
    else
      match all_metrics.find? (fun m => matchesMetric m key) with
      | none => collateGo rest (idx + 1)
      | some metric =>
        match normalizeGo false key with
        | none => none
        | some um0 =>
          let um1 := strip um0
          let um := if metric ∈ apArMetrics then digitSub um1 else um1
          match collateGo rest (idx + 1) with
          | none => none
          | some (ns, is) => some (um :: ns, idx :: is)

/-- `collate_metrics(keys)`: returns the parallel lists of normalized metric
names and their original column indices, or `none` when the Python code would
raise (unclosed `<...>` span in a matched header). -/
def collate_metrics (keys : List Str) : Option (List Str × List Nat) :=
  collateGo keys 0

/-- Case-insensitive occurrence of `t` in `k` as a substring, the relation the
spec's words describe ("any mix of letter cases in the header matches"). -/
def ciOccurs (t k : Str) : Prop := lowerS t <:+: lowerS k

/-! ## Facts about `containsSub` and `collate_metrics` -/

theorem isPrefixOfIffPre (p s : Str) : p.isPrefixOf s = true ↔ p <+: s :=
  List.isPrefixOf_iff_prefix

theorem containsSub_iff (p s : Str) : containsSub p s = true ↔ p <:+: s := by
  induction s with
  | nil => simp [containsSub, List.isEmpty_iff, List.infix_nil]
  | cons a t ih => simp [containsSub, ih, List.infix_cons_iff, isPrefixOfIffPre]

/-- Claim C3 (amended): the membership test of the metric-name normalizer
succeeds exactly when the fully-uppercased form or the capitalized form of the
vocabulary term occurs in the header as an exact substring.  (This implies, but
is not implied by, case-insensitive occurrence.) -/
theorem metric_match_iff_upper_or_capitalized_infix (m k : Str) :
    matchesMetric m k = true ↔ (upperS m <:+: k ∨ capitalizeS m <:+: k) := by
  simp [matchesMetric, containsSub_iff]

/-- Claim C3 witness: the amended statement evaluated at the vocabulary term
`pck` and header `PCKh`. -/
theorem metric_match_iff_witness :
    matchesMetric (S "pck") (S "PCKh") = true ↔
      (upperS (S "pck") <:+: S "PCKh" ∨ capitalizeS (S "pck") <:+: S "PCKh") :=
  metric_match_iff_upper_or_capitalized_infix (S "pck") (S "PCKh")

/-- Claim C3 counterexample: the vocabulary term `ap` occurs case-insensitively
in the header `map`, yet the code's membership test
(`'AP' in key or 'Ap' in key`) fails, and the whole normalizer consequently
recognizes no metric in that header. -/
theorem metric_match_not_case_insensitive :
    matchesMetric (S "ap") (S "map") = false ∧ ciOccurs (S "ap") (S "map") ∧
      collate_metrics [S "map"] = some ([], []) := by
  refine ⟨by decide, ?_, by decide⟩
  show lowerS (S "ap") <:+: lowerS (S "map")
  decide

/-- Claim C4 counterexample: the header `AP 50` normalizes to `AP @0.5`
(space preserved: the space-collapsing `re.sub` result is discarded by the
code), not to the claimed `AP@0.5`; and the header `AP@<tag>50` normalizes to
`AP@@0.5`, not to the claimed `AP @0.5`. -/
theorem ap50_examples_differ_from_claim :
    collate_metrics [S "AP 50"] = some ([S "AP @0.5"], [0]) ∧
      S "AP @0.5" ≠ S "AP@0.5" ∧
      collate_metrics [S "AP@<tag>50"] = some ([S "AP@@0.5"], [0]) ∧
      S "AP@@0.5" ≠ S "AP @0.5" := by
  decide

/-- Claim C4 (amended): matched headers are rewritten by deleting `<...>`
spans, turning `*`/`_` into spaces and trimming, WITHOUT collapsing interior
space runs (the collapse is computed but its result discarded), and for
`ap`/`ar` metrics the first digit run `d` is replaced in place by `@` followed
by `d` divided by `100`; so `AP 50` yields `AP @0.5`, `AP@<tag>50` yields
`AP@@0.5`, and `AP  50` (two spaces) keeps both spaces, yielding `AP  @0.5`. -/
theorem metric_name_examples :
    collate_metrics [S "AP 50"] = some ([S "AP @0.5"], [0]) ∧
      collate_metrics [S "AP@<tag>50"] = some ([S "AP@@0.5"], [0]) ∧
      collate_metrics [S "AP  50"] = some ([S "AP  @0.5"], [0]) := by
  decide

/-- Claim C9 counterexample: the normalizer does not return two lists for
every input header list: on the header `<AP` (a matched metric with an
unclosed `<` span) the Python code raises `IndexError`, modelled by `none`. -/
theorem collate_crashes_on_unclosed_bracket :
    collate_metrics [S "<AP"] = none := by decide

theorem collateGo_shape :
    ∀ (keys : List Str) (idx : Nat) (ns : List Str) (is : List Nat),
      collateGo keys idx = some (ns, is) →
      ns.length = is.length ∧ is.Pairwise (· < ·) ∧
        ∀ j ∈ is, idx ≤ j ∧ ∃ k, keys.get? (j - idx) = some k ∧ k ∉ reservedCols := by
  intro keys
  induction keys with
  | nil =>
    intro idx ns is h
    simp [collateGo] at h
    obtain ⟨h1, h2⟩ := h
    subst h1; subst h2
    simp
  | cons key rest ih =>
    intro idx ns is h
    by_cases hres : key ∈ reservedCols
    · simp only [collateGo, if_pos hres] at h
      obtain ⟨hlen, hpw, hmem⟩ := ih (idx + 1) ns is h
      refine ⟨hlen, hpw, ?_⟩
      intro j hj
      obtain ⟨hle, k, hk, hkres⟩ := hmem j hj
      refine ⟨by omega, k, ?_, hkres⟩
      have : j - idx = (j - (idx + 1)) + 1 := by omega
      rw [this]
      simpa using hk
    · cases hfind : all_metrics.find? (fun m => matchesMetric m key) with
      | none =>
        simp only [collateGo, if_neg hres, hfind] at h
        obtain ⟨hlen, hpw, hmem⟩ := ih (idx + 1) ns is h
        refine ⟨hlen, hpw, ?_⟩
        intro j hj
        obtain ⟨hle, k, hk, hkres⟩ := hmem j hj
        refine ⟨by omega, k, ?_, hkres⟩
        have : j - idx = (j - (idx + 1)) + 1 := by omega
        rw [this]
        simpa using hk
      | some metric =>
        simp only [collateGo, if_neg hres, hfind] at h
        cases hnorm : normalizeGo false key with
        | none => simp [hnorm] at h
        | some um0 =>
          simp only [hnorm] at h
          cases hrec : collateGo rest (idx + 1) with
          | none => simp [hrec] at h
          | some p =>
            obtain ⟨ns', is'⟩ := p
            simp only [hrec, Option.some.injEq, Prod.mk.injEq] at h
            obtain ⟨hns, his⟩ := h
            subst hns; subst his
            obtain ⟨hlen, hpw, hmem⟩ := ih (idx + 1) ns' is' hrec
            refine ⟨by simpa using hlen, ?_, ?_⟩
            · refine List.Pairwise.cons ?_ hpw
              intro j hj
              have := (hmem j hj).1
              omega
            · intro j hj
              rcases List.mem_cons.mp hj with hj0 | hj'
              · subst hj0
                exact ⟨le_refl _, key, by simp, hres⟩
              · obtain ⟨hle, k, hk, hkres⟩ := hmem j hj'
                refine ⟨by omega, k, ?_, hkres⟩
                have : j - idx = (j - (idx + 1)) + 1 := by omega
                rw [this]
                simpa using hk

/-- Claim C9 (amended): whenever `collate_metrics` returns (it raises on a
matched header with an unclosed `<` span), the two returned lists have equal
length, the column indices are strictly increasing (hence each appears at most
once), and no returned index refers to a column named exactly `Arch`,
`Input Size`, `ckpt` or `log`. -/
theorem collate_shape_of_success (keys ns : List Str) (is : List Nat)
    (h : collate_metrics keys = some (ns, is)) :
    ns.length = is.length ∧ is.Pairwise (· < ·) ∧
      ∀ j ∈ is, ∃ k, keys.get? j = some k ∧ k ∉ reservedCols := by
  obtain ⟨hlen, hpw, hmem⟩ := collateGo_shape keys 0 ns is h
  refine ⟨hlen, hpw, ?_⟩
  intro j hj
  have := (hmem j hj).2
  simpa using this

/-- Claim C9 witness: the amended statement applied to the concrete header row
`[Arch, AP, ckpt, AR]`, which yields names `[AP, AR]` at indices `[1, 3]`. -/
theorem collate_shape_witness :
    ([S "AP", S "AR"] : List Str).length = ([1, 3] : List Nat).length ∧
      ([1, 3] : List Nat).Pairwise (· < ·) ∧
      ∀ j ∈ ([1, 3] : List Nat),
        ∃ k, ([S "Arch", S "AP", S "ckpt", S "AR"] : List Str).get? j = some k ∧
          k ∉ reservedCols :=
  collate_shape_of_success [S "Arch", S "AP", S "ckpt", S "AR"]
    [S "AP", S "AR"] [1, 3] (by decide)

/-! ## Document parser: data model -/

/-- The Python exceptions `parse_md` can raise, by kind.  `fuel` is the
recursion bound of the embedded scanner; it is unreachable for the bound
`parse_md` passes, since every step consumes at least one line. -/
inductive Err where
  | ioError
  | indexError
  | valueError
  | nameErrorDataset
  | fuel
deriving DecidableEq

/-- One model record (lines 191-207). -/
structure ModelRec where
  name : Str
  inCollection : Str
  config : Str
  trainingData : Str
  flops : Option Str
  params : Option Str
  task : Str
  dataset : Str
  metrics : List (Str × Str)
  weights : Str
deriving DecidableEq

/-- The collection record (lines 120-124). -/
structure Collection where
  name : Str
  arch : List Str
  readme : Str
  paper : List Str
deriving DecidableEq

/-- The per-document result `{'Collections': [collection], 'Models': models}`. -/
structure Doc where
  coll : Collection
  models : List ModelRec
deriving DecidableEq

/-- The mutable locals of the scanning loop: the collection's architecture and
paper lists, the active `dataset` (unassigned ↦ `none`), and the models. -/
structure PState where
  arch : List Str
  papers : List Str
  dataset : Option Str
  models : List ModelRec
deriving DecidableEq

/-- The per-table locals (lines 149-160): required and optional column
indices and the collated metric names/indices. -/
structure TableCtx where
  cfgIdx : Nat
  ckptIdx : Nat
  flopsIdx : Option Nat
  paramsIdx : Option Nat
  mNames : List Str
  mIdxs : List Nat
deriving DecidableEq

/-- The per-document constants: collection name and task name. -/
structure DocCtx where
  collName : Str
  task : Str
deriving DecidableEq

/-! ## Document parser: the anchor regex -/

/-- All positions at which `pat` occurs in `s`, in ascending order. -/
def occs (pat s : Str) : List Nat :=
  (List.range (s.length + 1)).filter (fun i => pat.isPrefixOf (s.drop i))

def anchorOpen : Str := S "<a href=" ++ ['"']

def anchorMid : Str := ['"', '>']

def anchorClose : Str := S "</a>"

/-- The regex `<a href="(.*)">(.*)</a>` attempted at start position `i`, both
groups greedy: group 1 runs to the last `">` that still leaves a `</a>`
behind it, group 2 then to the last `</a>`. -/
def anchorAt (s : Str) (i : Nat) : Option (Str × Str) :=
  let body := s.drop (i + 9)
  match (occs anchorClose body).getLast? with
  | none => none
  | some kk =>
    match ((occs anchorMid body).filter (fun j => j + 2 ≤ kk)).getLast? with
    | none => none
    | some j => some (body.take j, (body.drop (j + 2)).take (kk - (j + 2)))

/-- Models `re.findall(r'<a href="(.*)">(.*)</a>', line)[0]`: the groups of
the leftmost match; `none` when there is no match (the Python `[0]` then
raises `IndexError`). -/
def findAnchor (s : Str) : Option (Str × Str) :=
  ((occs anchorOpen s).filterMap (fun i => anchorAt s i)).head?

/-! ## Document parser: tables -/

/-- Header cells: `[col.strip() for col in line.split('|')][1:-1]` (line 149). -/
def headerCols (l : Str) : List Str :=
  (((splitOnChar '|' l).map strip).drop 1).dropLast

/-- Data-row cells: `line.split('|')[1:-1]` (line 164, no stripping). -/
def rowCells (l : Str) : List Str :=
  ((splitOnChar '|' l).drop 1).dropLast

/-- `cols.index(x)`: first index of `x`; `none` models Python's `ValueError`. -/
def idxOf (x : Str) : List Str → Option Nat
  | [] => none
  | y :: t => if y = x then some 0 else (idxOf x t).map (· + 1)

/-- Drop one leading sign character (for the `float()` recognizer). -/
def dropSign : Str → Str
  | '+' :: t => t
  | '-' :: t => t
  | s => s

/-- Digit string with at most one dot and at least one digit. -/
def decOk (m : Str) : Bool :=
  match splitOnChar '.' m with
  | [a] => !a.isEmpty && a.all (fun c => c.isDigit)
  | [a, b] => !(a ++ b).isEmpty && (a ++ b).all (fun c => c.isDigit)
  | _ => false

/-- Recognizer for the strings Python `float()` accepts (whitespace-stripped
sign, `inf`/`infinity`/`nan`, or decimal mantissa with optional exponent;
numeric-literal underscores are not modelled).  Cells failing it make the
row conversion raise `ValueError`.  The parsed value itself is kept as the
source literal, since no claim inspects numeric values and the serializer is
abstract. -/
def validFloat (s : Str) : Bool :=
  let t := dropSign (strip s)
  let lt := lowerS t
  if lt = S "inf" ∨ lt = S "infinity" ∨ lt = S "nan" then true
  else
    match splitOnChar 'e' lt with
    | [m] => decOk m
    | [m, e] => decOk m && (let e2 := dropSign e; !e2.isEmpty && e2.all (fun c => c.isDigit))
    | _ => false

/-- Python dict assignment `d[k] = v`: update in place, else append. -/
def dictUpsert (k v : Str) : List (Str × Str) → List (Str × Str)
  | [] => [(k, v)]
  | (k', v') :: t => if k' = k then (k, v) :: t else (k', v') :: dictUpsert k v t

/-- Lines 186-189: `metrics[name] = float(line[idx])` over the zipped
metric names and column indices. -/
def buildMetrics (cells : List Str) : List (Str × Nat) → List (Str × Str) → Except Err (List (Str × Str))
  | [], acc => .ok acc
  | (nm, mi) :: rest, acc =>
    match cells.get? mi with
    | none => .error .indexError
    | some cell =>
      if validFloat cell then buildMetrics cells rest (dictUpsert nm cell acc)
      else .error .valueError

/-- Lines 181-184: the optional `FLOPs`/`Params` cell at header index `fi?`. -/
def optFloatCell (cells : List Str) : Option Nat → Except Err (Option Str)
  | none => .ok none
  | some fi =>
    match cells.get? fi with
    | none => .error .indexError
    | some c => if validFloat c then .ok (some c) else .error .valueError

def dotSlash : List Char := ['.', '/']

/-- Auxiliary scan for `splitext`, over the reversed path: find the last dot,
abort at a path separator, and reject a basename of leading dots only. -/
def findExtRev : Str → Str → Option (Str × Str)
  | [], _ => none
  | c :: rest, acc =>
    if c = '/' then none
    else if c = '.' then
      if (rest.takeWhile (fun x => x != '/')).any (fun x => x != '.') then some (rest, '.' :: acc)
      else none
    else findExtRev rest (c :: acc)

/-- `osp.splitext(p)` (POSIX): split off the extension at the last dot,
provided it lies in the basename and is preceded there by a non-dot. -/
def splitext (p : Str) : Str × Str :=
  match findExtRev p.reverse [] with
  | none => (p, [])
  | some (stemRev, extChars) => (stemRev.reverse, extChars)

/-- Python `s.replace(old, new, 1)` for nonempty `old`. -/
def replaceFirst (old new : Str) : Str → Str
  | [] => []
  | c :: t =>
    if old.isPrefixOf (c :: t) then new ++ (c :: t).drop old.length
    else c :: replaceFirst old new t

/-- Python `s.replace(o, new)` for a one-character pattern. -/
def replaceAllChar (o : Char) (new : Str) : Str → Str
  | [] => []
  | c :: t => if c = o then new ++ replaceAllChar o new t else c :: replaceAllChar o new t

/-- Lines 177-178: the model name derived from the (already `.strip('./')`-ed)
config path: drop the extension, drop the first `configs/`, flatten `/`. -/
def mnameOfConfig (config : Str) : Str :=
  replaceAllChar '/' (S "--") (replaceFirst (S "configs/") [] (splitext config).1)

/-- Parse one data row (lines 163-209): the state is unchanged when the
`Arch` cell contains no `](`; otherwise one model record is appended.  Errors
model the Python exceptions, raised in source order. -/
def processRow (ctx : DocCtx) (tc : TableCtx) (st : PState) (row : Str) : Except Err PState :=
  let cells := rowCells row
  match cells.get? tc.cfgIdx with
  | none => .error .indexError
  | some ac =>
    match idxOfSub (S "](") ac with
    | none => .ok st
    | some la =>
      let afterA := ac.drop (la + 2)
      match idxOfChar ')' afterA with
      | none => .error .valueError
      | some ra =>
        let config := stripBothChars dotSlash (afterA.take ra)
        match cells.get? tc.ckptIdx with
        | none => .error .indexError
        | some kc =>
          match idxOfSub (S "](") kc with
          | none => .error .valueError
          | some lk =>
            let afterK := kc.drop (lk + 2)
            match idxOfChar ')' afterK with
            | none => .error .valueError
            | some rk =>
              let ckpt := afterK.take rk
              let mname := mnameOfConfig config
              match st.dataset with
              | none => .error .nameErrorDataset
              | some ds =>
                match optFloatCell cells tc.flopsIdx with
                | .error e => .error e
                | .ok fl =>
                  match optFloatCell cells tc.paramsIdx with
                  | .error e => .error e
                  | .ok pr =>
                    match buildMetrics cells (tc.mNames.zip tc.mIdxs) [] with
                    | .error e => .error e
                    | .ok ms =>
                      .ok { st with models := st.models ++
                        [{ name := mname, inCollection := ctx.collName, config := config,
                           trainingData := ds, flops := fl, params := pr,
                           task := ctx.task, dataset := ds, metrics := ms,
                           weights := ckpt }] }

/-- One scanning step at a line not currently inside a table's rows: a typed
annotation block (4 lines, lines 132-144), a table header (2 lines, lines
147-160), or a plain line.  Returns the new mode, state, and remaining
lines. -/
def topStep (st : PState) (l : Str) (rest : List Str) :
    Except Err (Option TableCtx × PState × List Str) :=
  if l.take 2 = S "<!" then
    match rest with
    | _ :: _ :: r3 :: rest2 =>
      match findAnchor r3 with
      | none => .error .indexError
      | some (url, rawName) =>
        let nm := strip (rawName.takeWhile (fun c => c != '('))
        let alg := containsSub (S "ALGORITHM") l || containsSub (S "BACKBONE") l
        .ok (none,
          { arch := if alg then st.arch ++ [nm] else st.arch,
            papers := st.papers ++ [url],
            dataset := if !alg && containsSub (S "DATASET") l then some nm else st.dataset,
            models := st.models }, rest2)
    | _ => .error .indexError
  else
    match rest with
    | r1 :: rest2 =>
      if l.head? = some '|' ∧ r1.take 3 = S "| :" then
        let cols := headerCols l
        match idxOf (S "Arch") cols with
        | none => .error .valueError
        | some ci =>
          match idxOf (S "ckpt") cols with
          | none => .error .valueError
          | some ki =>
            match collate_metrics cols with
            | none => .error .indexError
            | some (mn, mi) =>
              .ok (some ⟨ci, ki, idxOf (S "FLOPs") cols, idxOf (S "Params") cols, mn, mi⟩,
                st, rest2)
      else .ok (none, st, r1 :: rest2)
    | [] => .ok (none, st, rest)

/-- The line scanner of `parse_md` (lines 129-213).  The mode is `some tc`
while consuming the data rows of a table; a non-row line while in a table is
re-examined as a top-level line, exactly as the Python `i = j` does.  Fuel
only bounds the recursion: every step consumes at least one line, so the
`lines.length + 1` passed by `parseDoc` never exhausts it. -/
def scanDoc (ctx : DocCtx) : Nat → Option TableCtx → PState → List Str → Except Err PState
  | _, _, st, [] => .ok st
  | 0, _, _, _ :: _ => .error .fuel
  | Nat.succ f, some tc, st, l :: rest =>
    if l.head? = some '|' then
      match processRow ctx tc st l with
      | .error e => .error e
      | .ok st2 => scanDoc ctx f (some tc) st2 rest
    else
      match topStep st l rest with
      | .error e => .error e
      | .ok (tc2, st2, rest2) => scanDoc ctx f tc2 st2 rest2
  | Nat.succ f, none, st, l :: rest =>
    match topStep st l rest with
    | .error e => .error e
    | .ok (tc2, st2, rest2) => scanDoc ctx f tc2 st2 rest2

/-! ## Paths, filesystem, and the run -/

/-- `osp.basename` for POSIX paths. -/
def basenameOf (p : Str) : Str := (splitOnChar '/' p).getLastD []

/-- `osp.relpath(md_file, MMPOSE_ROOT).rsplit(osp.sep, 3)[0]` (line 104);
paths are modelled as already relative to the repository root. -/
def taskDirOf (p : Str) : Str :=
  let parts := splitOnChar '/' p
  if parts.length ≤ 3 then parts.headD []
  else joinSep ['/'] (parts.take (parts.length - 3))

/-- `osp.join(a, b)` for the cases arising here (`b` relative, no trailing
separator on `a`). -/
def joinPath (a b : Str) : Str := if a = [] then b else a ++ '/' :: b

/-- The path of the task README read by `get_task_name` (line 105). -/
def readmePath (p : Str) : Str := joinPath (taskDirOf p) (S "README.md")

/-- The first line of a file, newline excluded (`f.readline()`; the trailing
newline is removed by the subsequent `.strip()` anyway). -/
def firstLine (c : Str) : Str := c.takeWhile (fun ch => ch != '\n')

/-- `readlines()`, with the trailing newline removed from each line.  The
newline always sits in the final piece of the `split('|')` of a line, which
the code's `[1:-1]` discards, so dropping it is observation-equivalent. -/
def splitLines (c : Str) : List Str :=
  match c with
  | [] => []
  | _ :: _ =>
    let ps := splitOnChar '\n' c
    if c.getLast? = some '\n' then ps.dropLast else ps

/-- The filesystem: an association list from paths to file contents. -/
abbrev FS := List (Str × Str)

def lookupFS : FS → Str → Option Str
  | [], _ => none
  | (k, v) :: t, q => if k = q then some v else lookupFS t q

/-- Overwrite-or-create path `k` with content `v`. -/
def setF : FS → Str → Str → FS
  | [], k, v => [(k, v)]
  | (k', v') :: t, k, v => if k' = k then (k, v) :: t else (k', v') :: setF t k v

/-- The two shapes of object the script serializes. -/
inductive YObj where
  | doc : Doc → YObj
  | index : List Str → YObj

/-- One performed write: the path, the prior content (if the file existed)
and the bytes written. -/
structure WriteRec where
  file : Str
  pre : Option Str
  new : Str
deriving DecidableEq

/-- `dump_yaml_and_check_difference(obj, file)` (lines 18-43), over an
arbitrary serializer `dump` standing in for `mmcv.dump` (third-party library
code; the claims use only that it is a deterministic function of the object).
The `WriteRec` additionally records the pre/post content at the path, used to
state the drift properties; the Boolean is the function's return value:
`true` when the file did not exist or the written bytes differ. -/
def dump_yaml_and_check_difference (dump : YObj → Str) (obj : YObj) (file : Str) (fs : FS) :
    FS × Bool × WriteRec :=
  let original := lookupFS fs file
  let content := dump obj
  (setF fs file content, decide (¬ original = some content), ⟨file, original, content⟩)

/-- The pure part of `parse_md` (lines 111-215): read the task name and the
document, scan its lines, and build the result record. -/
def parseDoc (fs : FS) (p : Str) : Except Err Doc :=
  match lookupFS fs (readmePath p) with
  | none => .error .ioError
  | some rc =>
    let task := strip ((firstLine rc).drop 2)
    match lookupFS fs p with
    | none => .error .ioError
    | some mdc =>
      let lines := splitLines mdc
      let cname := (splitext (basenameOf p)).1
      match scanDoc ⟨cname, task⟩ (lines.length + 1) none ⟨[], [], none, []⟩ lines with
      | .error e => .error e
      | .ok st => .ok ⟨⟨cname, st.arch, p, st.papers⟩, st.models⟩

/-- The output path `md_file[:-2] + 'yml'` (line 216). -/
def ymlPathOf (p : Str) : Str := p.take (p.length - 2) ++ S "yml"

/-- `parse_md` (lines 111-219): parse the document and write its YAML file. -/
def parse_md (dump : YObj → Str) (fs : FS) (p : Str) : Except Err (FS × Bool × WriteRec) :=
  match parseDoc fs p with
  | .error e => .error e
  | .ok d => .ok (dump_yaml_and_check_difference dump (.doc d) (ymlPathOf p) fs)

/-- Whether a path is matched by the glob `configs/**/*.yml` (line 229). -/
def ymlUnderConfigs (p : Str) : Bool :=
  (S "configs/").isPrefixOf p && (S ".yml").isSuffixOf p

/-- Lexicographic comparison of strings by code point (Python `<=` on str). -/
def strLeB : Str → Str → Bool
  | [], _ => true
  | _ :: _, [] => false
  | a :: s, b :: t => if a = b then strLeB s t else decide (a < b)

def insSorted (p : Str) : List Str → List Str
  | [] => [p]
  | q :: t => if strLeB p q then p :: q :: t else q :: insSorted p t

/-- A lexicographically sorted copy (models `yml_files.sort()`). -/
def sortPaths (l : List Str) : List Str := l.foldr insSorted []

/-- The glob + sort of `update_model_index` (lines 228-230); real directory
listings contain each file once, hence the `dedup`. -/
def globYml (fs : FS) : List Str :=
  sortPaths (((fs.map Prod.fst).filter ymlUnderConfigs).dedup)

def modelIndexPath : Str := S "model-index.yml"

/-- `update_model_index()` (lines 222-240). -/
def update_model_index (dump : YObj → Str) (fs : FS) : FS × Bool × WriteRec :=
  dump_yaml_and_check_difference dump (.index (globYml fs)) modelIndexPath fs

/-- The per-file loop of `__main__` (lines 250-252), also returning the list
of performed writes; an exception aborts the loop, keeping the filesystem as
it then is. -/
def runFiles (dump : YObj → Str) : FS → List Str → FS × List WriteRec × Except Err Bool
  | fs, [] => (fs, [], .ok false)
  | fs, p :: ps =>
    match parse_md dump fs p with
    | .error e => (fs, [], .error e)
    | .ok (fs2, b, w) =>
      match runFiles dump fs2 ps with
      | (fs3, tr, res) => (fs3, w :: tr, res.map (fun m => b || m))

/-- `__main__` (lines 243-256): the final filesystem, the performed writes,
and the exit status — `.error` when an exception propagates (CPython would
then terminate with a traceback rather than reach `exit`). -/
def mainRun (dump : YObj → Str) (argv : List Str) (fs : FS) :
    FS × List WriteRec × Except Err Nat :=
  let files := argv.filter (fun p => basenameOf p != S "README.md")
  if files.isEmpty then (fs, [], .ok 0)
  else
    match runFiles dump fs files with
    | (fs1, tr, .error e) => (fs1, tr, .error e)
    | (fs1, tr, .ok m1) =>
      match update_model_index dump fs1 with
      | (fs2, m2, w) => (fs2, tr ++ [w], .ok (if m1 || m2 then 1 else 0))

/-- Replay a write trace over a filesystem. -/
def applyWrites (fs : FS) (tr : List WriteRec) : FS :=
  tr.foldl (fun f w => setF f w.file w.new) fs

/-! ## Concrete fixtures used by witnesses and counterexamples -/

/-- A small concrete serializer used to instantiate the `dump` parameter in
witnesses and counterexamples (the claims' theorems hold for every `dump`). -/
def dumpTest : YObj → Str
  | .doc d => S "C:" ++ d.coll.name ++ S ";R:" ++ d.coll.readme ++ S ";A:" ++
      joinSep (S ",") d.coll.arch ++ S ";P:" ++ joinSep (S ",") d.coll.paper ++
      S ";M:" ++ joinSep (S ";") (d.models.map (fun m => m.name ++ S "@" ++ m.config))
  | .index l => S "I:" ++ joinSep (S ",") l

/-- A well-formed document: algorithm and dataset annotation blocks, then a
table with two metric columns and two data rows. -/
def mdDoc : Str := joinSep ['\n']
  [S "<!-- [ALGORITHM] -->", S "", S "",
   S "<a href=\"https://x.y/paper\">FooNet (ICML'2020)</a>",
   S "<!-- [DATASET] -->", S "", S "",
   S "<a href=\"https://x.y/data\">CocoSet (ECCV'2018)</a>",
   S "",
   S "| Arch | Input Size | AP | AR | ckpt | log |",
   S "| :--- | :---: | :---: | :---: | :---: | :---: |",
   S "| [foo](/configs/body/2d_kpt/foo/bar.py) | 256x192 | 0.72 | 0.75 | [ckpt](https://dl/x.pth) | [log](https://dl/x.log) |",
   S "| [foo2](/configs/body/2d_kpt/foo/baz.py) | 256x192 | 0.74 | 0.77 | [ckpt](https://dl/y.pth) | [log](https://dl/y.log) |"]

def mdPath : Str := S "configs/body/2d_kpt/foo/bar_coco.md"

/-- A filesystem holding `mdDoc` and its task README. -/
def fsT : FS := [(mdPath, mdDoc), (S "configs/body/README.md", S "# Body 2D Keypoint")]

/-- The state of `fsT` after one full run (so a second run is clean). -/
def fsT2 : FS := (mainRun dumpTest [mdPath] fsT).1

/-- A document with a linked `Arch` cell but a `ckpt` cell without a link,
and no `DATASET` annotation anywhere. -/
def mdNoCkptLink : Str := joinSep ['\n']
  [S "| Arch | ckpt |", S "| :--- | :---: |",
   S "| [foo](/configs/a/b.py) | nolink |"]

def pNoCkptLink : Str := S "configs/a/b/c/bad.md"

def fsNoCkptLink : FS :=
  [(pNoCkptLink, mdNoCkptLink), (S "configs/a/README.md", S "# T")]

/-! ## Claim C7: rows without an Arch link are skipped -/

/-- Claim C7: a table data row whose `Arch` cell contains no `](` contributes
no model record and is skipped without error; the scan continues with the next
row of the same table (same table mode, same state). -/
theorem row_without_link_skipped (ctx : DocCtx) (f : Nat) (tc : TableCtx) (st : PState)
    (row : Str) (rest : List Str) (ac : Str)
    (h1 : row.head? = some '|')
    (h2 : (rowCells row)[tc.cfgIdx]? = some ac)
    (h3 : idxOfSub (S "](") ac = none) :
    scanDoc ctx (f + 1) (some tc) st (row :: rest) = scanDoc ctx f (some tc) st rest := by
  simp [scanDoc, h1, processRow, h2, h3]

/-- Claim C7 witness: the skip step evaluated on the concrete row `| x | y |`
(no link) inside a table whose `Arch` column is column 0. -/
theorem row_without_link_skipped_witness :
    scanDoc ⟨[], []⟩ 1 (some ⟨0, 1, none, none, [], []⟩) ⟨[], [], none, []⟩ [S "| x | y |"] =
      scanDoc ⟨[], []⟩ 0 (some ⟨0, 1, none, none, [], []⟩) ⟨[], [], none, []⟩ [] :=
  row_without_link_skipped ⟨[], []⟩ 0 ⟨0, 1, none, none, [], []⟩ ⟨[], [], none, []⟩
    (S "| x | y |") [] (S " x ") (by decide) (by decide) (by decide)

/-! ## Claim C8: annotation blocks -/

/-- Claim C8: for a well-formed annotation block the anchor URL is appended to
the collection's paper list unconditionally; the anchor name is appended to
the architecture list exactly when the annotation line contains `ALGORITHM` or
`BACKBONE`; and it becomes the active dataset exactly when the line contains
`DATASET` and neither of the former. -/
theorem annot_block_updates (ctx : DocCtx) (f : Nat) (st : PState)
    (l r1 r2 r3 : Str) (rest : List Str) (url rawName : Str)
    (h1 : l.take 2 = S "<!")
    (h2 : findAnchor r3 = some (url, rawName)) :
    scanDoc ctx (f + 1) none st (l :: r1 :: r2 :: r3 :: rest) =
      scanDoc ctx f none
        { arch := if containsSub (S "ALGORITHM") l || containsSub (S "BACKBONE") l
                  then st.arch ++ [strip (rawName.takeWhile (fun c => c != '('))]
                  else st.arch,
          papers := st.papers ++ [url],
          dataset := if !(containsSub (S "ALGORITHM") l || containsSub (S "BACKBONE") l)
                        && containsSub (S "DATASET") l
                     then some (strip (rawName.takeWhile (fun c => c != '(')))
                     else st.dataset,
          models := st.models } rest := by
  simp [scanDoc, topStep, h1, h2]

/-- Claim C8 witness: the annotation step evaluated on the concrete dataset
block of `mdDoc` (the anchor's name is truncated at `(` and stripped, its URL
always recorded). -/
theorem annot_block_updates_witness :
    scanDoc ⟨[], []⟩ 1 none ⟨[], [], none, []⟩
        [S "<!-- [DATASET] -->", S "", S "",
         S "<a href=\"https://x.y/data\">CocoSet (ECCV'2018)</a>"] =
      scanDoc ⟨[], []⟩ 0 none
        { arch := if containsSub (S "ALGORITHM") (S "<!-- [DATASET] -->")
                      || containsSub (S "BACKBONE") (S "<!-- [DATASET] -->")
                  then ([] : List Str) ++ [strip ((S "CocoSet (ECCV'2018)").takeWhile (fun c => c != '('))]
                  else [],
          papers := ([] : List Str) ++ [S "https://x.y/data"],
          dataset := if !(containsSub (S "ALGORITHM") (S "<!-- [DATASET] -->")
                          || containsSub (S "BACKBONE") (S "<!-- [DATASET] -->"))
                        && containsSub (S "DATASET") (S "<!-- [DATASET] -->")
                     then some (strip ((S "CocoSet (ECCV'2018)").takeWhile (fun c => c != '(')))
                     else none,
          models := [] } [] :=
  annot_block_updates ⟨[], []⟩ 0 ⟨[], [], none, []⟩
    (S "<!-- [DATASET] -->") (S "") (S "")
    (S "<a href=\"https://x.y/data\">CocoSet (ECCV'2018)</a>") []
    (S "https://x.y/data") (S "CocoSet (ECCV'2018)") (by decide) (by decide)

/-! ## Claim C10: a DATASET annotation is a precondition for model records -/

/-- Claim C10 counterexample: this document contains a data row with a valid
`Arch` link and no preceding `DATASET` annotation, yet parsing fails with a
`ValueError` (from extracting the link of its `ckpt` cell), not with the
claimed unbound-variable error: the claim's "fails with an unbound-variable
error" does not hold of every such document. -/
theorem linked_row_error_not_always_unbound :
    parseDoc fsNoCkptLink pNoCkptLink = .error Err.valueError ∧
      Err.valueError ≠ Err.nameErrorDataset := by
  exact ⟨rfl, by decide⟩

/-- Claim C10 (amended): processing a data row whose `Arch` and `ckpt` cells
both contain well-formed links while no `DATASET` annotation has occurred
(`st.dataset = none`) fails with the unbound-variable error for `dataset`. -/
theorem dataset_required_for_linked_row (ctx : DocCtx) (f : Nat) (tc : TableCtx) (st : PState)
    (row : Str) (rest : List Str) (ac kc : Str) (la ra lk rk : Nat)
    (hds : st.dataset = none)
    (h1 : row.head? = some '|')
    (h2 : (rowCells row)[tc.cfgIdx]? = some ac)
    (h3 : idxOfSub (S "](") ac = some la)
    (h4 : idxOfChar ')' (ac.drop (la + 2)) = some ra)
    (h5 : (rowCells row)[tc.ckptIdx]? = some kc)
    (h6 : idxOfSub (S "](") kc = some lk)
    (h7 : idxOfChar ')' (kc.drop (lk + 2)) = some rk) :
    scanDoc ctx (f + 1) (some tc) st (row :: rest) = .error .nameErrorDataset := by
  simp [scanDoc, h1, processRow, h2, h3, h4, h5, h6, h7, hds]

/-- Claim C10 witness: the amended statement on the concrete row
`| [foo](/configs/a/b.py) | [c](u) |` with no active dataset. -/
theorem dataset_required_witness :
    scanDoc ⟨[], []⟩ 1 (some ⟨0, 1, none, none, [], []⟩) ⟨[], [], none, []⟩
        [S "| [foo](/configs/a/b.py) | [c](u) |"] = .error .nameErrorDataset :=
  dataset_required_for_linked_row ⟨[], []⟩ 0 ⟨0, 1, none, none, [], []⟩ ⟨[], [], none, []⟩
    (S "| [foo](/configs/a/b.py) | [c](u) |") [] (S " [foo](/configs/a/b.py) ") (S " [c](u) ")
    5 15 3 1 (by decide) (by decide) (by decide) (by decide) (by decide) (by decide)
    (by decide) (by decide)

/-! ## Claim C6: parse faults abort the run; no rollback -/

theorem parse_md_ok_shape (dump : YObj → Str) (fs : FS) (p : Str) (fs2 : FS) (b : Bool)
    (w : WriteRec) (h : parse_md dump fs p = .ok (fs2, b, w)) :
    fs2 = setF fs w.file w.new ∧ b = decide (¬ w.pre = some w.new) ∧
      w.pre = lookupFS fs w.file := by
  cases hd : parseDoc fs p with
  | error e => simp [parse_md, hd] at h
  | ok d =>
    simp [parse_md, hd, dump_yaml_and_check_difference] at h
    obtain ⟨h1, h2, h3⟩ := h
    subst h1
    subst h3
    refine ⟨rfl, ?_, rfl⟩
    rw [decide_not, h2, Bool.not_not]

theorem runFiles_applyWrites (dump : YObj → Str) :
    ∀ (files : List Str) (fs : FS),
      (runFiles dump fs files).1 = applyWrites fs (runFiles dump fs files).2.1 := by
  intro files
  induction files with
  | nil => intro fs; simp [runFiles, applyWrites]
  | cons p ps ih =>
    intro fs
    cases hp : parse_md dump fs p with
    | error e => simp [runFiles, hp, applyWrites]
    | ok t =>
      obtain ⟨fs2, b, w⟩ := t
      obtain ⟨hfs2, hb, hw⟩ := parse_md_ok_shape dump fs p fs2 b w hp
      rcases hr : runFiles dump fs2 ps with ⟨fs3, tr, res⟩
      have h2 := ih fs2
      rw [hr] at h2
      simp only at h2
      simp only [runFiles, hp, hr]
      show fs3 = applyWrites fs (w :: tr)
      rw [h2, hfs2]
      simp [applyWrites]

theorem take2_pipe_ne (t : Str) : '|' :: List.take 1 t ≠ S "<!" := by
  intro h
  have h2 := congrArg List.head? h
  rw [show S "<!" = ['<', '!'] from rfl] at h2
  simp at h2

/-- Claim C6: a malformed annotation block (no anchor in its 4th line, or
fewer than 4 lines) aborts the scan with the propagated `IndexError`; a table
header missing the `Arch` or the `ckpt` column aborts it with the propagated
`ValueError`; and an aborted run performs no rollback: the filesystem a run
leaves behind is exactly the initial one with the performed writes applied. -/
theorem parse_faults_abort_without_rollback :
    (∀ (dump : YObj → Str) (argv : List Str) (fs fs2 : FS) (tr : List WriteRec) (e : Err),
        mainRun dump argv fs = (fs2, tr, .error e) → fs2 = applyWrites fs tr) ∧
    (∀ (ctx : DocCtx) (f : Nat) (st : PState) (l r1 r2 r3 : Str) (rest : List Str),
        l.take 2 = S "<!" → findAnchor r3 = none →
        scanDoc ctx (f + 1) none st (l :: r1 :: r2 :: r3 :: rest) = .error .indexError) ∧
    (∀ (ctx : DocCtx) (f : Nat) (st : PState) (t r1 : Str) (rest : List Str),
        r1.take 3 = S "| :" → idxOf (S "Arch") (headerCols ('|' :: t)) = none →
        scanDoc ctx (f + 1) none st (('|' :: t) :: r1 :: rest) = .error .valueError) ∧
    (∀ (ctx : DocCtx) (f : Nat) (st : PState) (t r1 : Str) (rest : List Str) (ci : Nat),
        r1.take 3 = S "| :" → idxOf (S "Arch") (headerCols ('|' :: t)) = some ci →
        idxOf (S "ckpt") (headerCols ('|' :: t)) = none →
        scanDoc ctx (f + 1) none st (('|' :: t) :: r1 :: rest) = .error .valueError) := by
  refine ⟨?_, ?_, ?_, ?_⟩
  · intro dump argv fs fs2 tr e h
    by_cases hemp : (argv.filter (fun p => basenameOf p != S "README.md")).isEmpty
    · simp [mainRun, hemp] at h
    · rcases hr : runFiles dump fs (argv.filter (fun p => basenameOf p != S "README.md"))
        with ⟨fs1, tr1, res⟩
      cases res with
      | error e2 =>
        simp [mainRun, hemp, hr] at h
        obtain ⟨h1, h2, h3⟩ := h
        subst h1
        subst h2
        have := runFiles_applyWrites dump
          (argv.filter (fun p => basenameOf p != S "README.md")) fs
        rw [hr] at this
        simpa using this
      | ok m1 =>
        rcases hu : update_model_index dump fs1 with ⟨fsu, m2, wu⟩
        simp [mainRun, hemp, hr, hu] at h
  · intro ctx f st l r1 r2 r3 rest h1 h2
    simp [scanDoc, topStep, h1, h2]
  · intro ctx f st t r1 rest hsep hidx
    simp [scanDoc, topStep, take2_pipe_ne, hsep, hidx]
  · intro ctx f st t r1 rest ci hsep hidx hck
    simp [scanDoc, topStep, take2_pipe_ne, hsep, hidx, hck]

/-- Claim C6 witness: the four parts of the abort/no-rollback statement, each
at a concrete input: an aborting run (missing ckpt link) that leaves the
filesystem unchanged with no writes; a malformed annotation block; a header
without `Arch`; and a header with `Arch` but without `ckpt`. -/
theorem parse_faults_witness :
    (fsNoCkptLink = applyWrites fsNoCkptLink []) ∧
    (scanDoc ⟨[], []⟩ 1 none ⟨[], [], none, []⟩
        [S "<!-- [DATASET] -->", S "", S "", S "no anchor here"] = .error .indexError) ∧
    (scanDoc ⟨[], []⟩ 1 none ⟨[], [], none, []⟩
        [('|' :: S " A | B |"), S "| :-"] = .error .valueError) ∧
    (scanDoc ⟨[], []⟩ 1 none ⟨[], [], none, []⟩
        [('|' :: S " Arch | B |"), S "| :-"] = .error .valueError) :=
  ⟨parse_faults_abort_without_rollback.1 dumpTest [pNoCkptLink] fsNoCkptLink
      fsNoCkptLink [] Err.valueError rfl,
   parse_faults_abort_without_rollback.2.1 ⟨[], []⟩ 0 ⟨[], [], none, []⟩
      (S "<!-- [DATASET] -->") (S "") (S "") (S "no anchor here") [] (by decide) (by decide),
   parse_faults_abort_without_rollback.2.2.1 ⟨[], []⟩ 0 ⟨[], [], none, []⟩
      (S " A | B |") (S "| :-") [] (by decide) (by decide),
   parse_faults_abort_without_rollback.2.2.2 ⟨[], []⟩ 0 ⟨[], [], none, []⟩
      (S " Arch | B |") (S "| :-") [] 0 (by decide) (by decide) (by decide)⟩

/-! ## Claim C1: exit status reflects per-write drift -/

theorem runFiles_exit (dump : YObj → Str) :
    ∀ (files : List Str) (fs fs2 : FS) (tr : List WriteRec) (m : Bool),
      runFiles dump fs files = (fs2, tr, .ok m) →
      (m = false ↔ ∀ w ∈ tr, w.pre = some w.new) := by
  intro files
  induction files with
  | nil =>
    intro fs fs2 tr m h
    simp [runFiles] at h
    obtain ⟨h1, h2, h3⟩ := h
    subst h2
    subst h3
    simp
  | cons p ps ih =>
    intro fs fs2 tr m h
    cases hp : parse_md dump fs p with
    | error e => simp [runFiles, hp] at h
    | ok t =>
      obtain ⟨fsa, b, w⟩ := t
      obtain ⟨hfsa, hb, hw⟩ := parse_md_ok_shape dump fs p fsa b w hp
      rcases hr : runFiles dump fsa ps with ⟨fs3, tr2, res⟩
      cases res with
      | error e => simp [runFiles, hp, hr, Except.map] at h
      | ok m2 =>
        simp [runFiles, hp, hr, Except.map] at h
        obtain ⟨h1, h2, h3⟩ := h
        subst h1
        subst h2
        subst h3
        have hih := ih fsa fs3 tr2 m2 hr
        constructor
        · intro hz w2 hw2
          have hbz : b = false ∧ m2 = false := by
            constructor
            · cases b with
              | false => rfl
              | true => simp at hz
            · cases m2 with
              | false => rfl
              | true => simp at hz
          rcases List.mem_cons.mp hw2 with h4 | h4
          · subst h4
            have := hbz.1
            rw [hb] at this
            simpa using this
          · exact (hih.mp hbz.2) w2 h4
        · intro hall
          have hwp : w.pre = some w.new := hall w (List.mem_cons_self w tr2)
          have hb2 : b = false := by rw [hb]; simp [hwp]
          have hm2 : m2 = false := hih.mpr (fun w2 h4 => hall w2 (List.mem_cons_of_mem w h4))
          rw [hb2, hm2]
          rfl

/-- Claim C1: whenever the run completes (reaches `exit`), the exit status is
`0` exactly when every write it performed wrote bytes equal to the bytes that
already existed at that path (so no output file was created or changed), and
`1` otherwise. -/
theorem exit_zero_iff_no_write_changed (dump : YObj → Str) (argv : List Str)
    (fs fs2 : FS) (tr : List WriteRec) (c : Nat)
    (h : mainRun dump argv fs = (fs2, tr, .ok c)) :
    c = 0 ↔ ∀ w ∈ tr, w.pre = some w.new := by
  by_cases hemp : (argv.filter (fun p => basenameOf p != S "README.md")).isEmpty
  · simp [mainRun, hemp] at h
    obtain ⟨h1, h2, h3⟩ := h
    subst h2
    subst h3
    simp
  · rcases hr : runFiles dump fs (argv.filter (fun p => basenameOf p != S "README.md"))
      with ⟨fs1, tr1, res⟩
    cases res with
    | error e => simp [mainRun, hemp, hr] at h
    | ok m1 =>
      rcases hu : update_model_index dump fs1 with ⟨fsu, m2, wu⟩
      have hu0 : update_model_index dump fs1 =
          (setF fs1 modelIndexPath (dump (.index (globYml fs1))),
           decide (¬ lookupFS fs1 modelIndexPath = some (dump (.index (globYml fs1)))),
           ⟨modelIndexPath, lookupFS fs1 modelIndexPath, dump (.index (globYml fs1))⟩) := rfl
      rw [hu] at hu0
      simp only [Prod.mk.injEq] at hu0
      obtain ⟨hfsu, hm2, hwu⟩ := hu0
      simp [mainRun, hemp, hr, hu] at h
      obtain ⟨h1, h2, h3⟩ := h
      subst h2
      subst h3
      have hiff1 := runFiles_exit dump _ fs fs1 tr1 m1 hr
      have key : ((if m1 = true ∨ m2 = true then (1 : Nat) else 0) = 0) ↔
          (m1 = false ∧ m2 = false) := by
        cases m1 <;> cases m2 <;> simp
      have hm2iff : m2 = false ↔
          lookupFS fs1 modelIndexPath = some (dump (.index (globYml fs1))) := by
        rw [hm2]; simp
      have hall : (∀ w ∈ tr1 ++ [wu], w.pre = some w.new) ↔
          ((∀ w ∈ tr1, w.pre = some w.new) ∧ wu.pre = some wu.new) := by
        simp [List.mem_append, or_imp, forall_and, forall_eq]
      rw [key, hall]
      refine and_congr hiff1 ?_
      rw [hwu]
      exact hm2iff

/-- Claim C1 witness: a second, clean run on `fsT2` (the state after a first
run) completes with exit status 0, and indeed every write of that run wrote
the bytes already present. -/
theorem exit_zero_witness :
    (0 : Nat) = 0 ↔ ∀ w ∈ (mainRun dumpTest [mdPath] fsT2).2.1, w.pre = some w.new :=
  exit_zero_iff_no_write_changed dumpTest [mdPath] fsT2
    (mainRun dumpTest [mdPath] fsT2).1 (mainRun dumpTest [mdPath] fsT2).2.1 0 rfl

/-! ## Claim C5: model-name derivation -/

theorem reverse_head_mem (s : Str) (h : s ≠ []) : ∃ c t, s.reverse = c :: t ∧ c ∈ s := by
  cases hr : s.reverse with
  | nil =>
    exfalso
    apply h
    have := congrArg List.reverse hr
    simpa using this
  | cons c t =>
    refine ⟨c, t, rfl, ?_⟩
    have : c ∈ s.reverse := by rw [hr]; exact List.mem_cons_self c t
    exact List.mem_reverse.mp this

theorem stripBoth_noop (cs : List Char) (s : Str)
    (h1 : ∃ c t, s = c :: t ∧ c ∉ cs)
    (h2 : ∃ c t, s.reverse = c :: t ∧ c ∉ cs) :
    stripBothChars cs s = s := by
  obtain ⟨c, t, hs, hc⟩ := h1
  obtain ⟨d, u, hrev, hd⟩ := h2
  have e1 : s.dropWhile (fun x => decide (x ∈ cs)) = s := by
    rw [hs, List.dropWhile_cons, if_neg (by simp [hc])]
  unfold stripBothChars
  rw [e1, hrev, List.dropWhile_cons, if_neg (by simp [hd]), ← hrev, List.reverse_reverse]

theorem findExtRev_through (e : Str) :
    ∀ (acc rest : Str), (∀ c ∈ e, ¬ c = '.' ∧ ¬ c = '/') →
      findExtRev (e ++ '.' :: rest) acc =
        (if (rest.takeWhile (fun x => x != '/')).any (fun x => x != '.')
         then some (rest, '.' :: (e.reverse ++ acc)) else none) := by
  induction e with
  | nil => intro acc rest hd; simp [findExtRev]
  | cons c cs ih =>
    intro acc rest hd
    have hc := hd c (List.mem_cons_self c cs)
    have hstep : findExtRev ((c :: cs) ++ '.' :: rest) acc =
        findExtRev (cs ++ '.' :: rest) (c :: acc) := by
      simp [findExtRev, hc.1, hc.2]
    rw [hstep, ih (c :: acc) rest (fun x hx => hd x (List.mem_cons_of_mem c hx))]
    by_cases hcond : (rest.takeWhile (fun x => x != '/')).any (fun x => x != '.') = true
    · simp only [hcond, if_true]
      simp
    · simp only [Bool.not_eq_true] at hcond
      simp [hcond]

theorem splitext_structured (x e : Str)
    (he : ∀ c ∈ e, ¬ c = '.' ∧ ¬ c = '/')
    (hx : ∃ c t, x.reverse = c :: t ∧ ¬ c = '.' ∧ ¬ c = '/') :
    splitext (x ++ '.' :: e) = (x, '.' :: e) := by
  unfold splitext
  have hrev : (x ++ '.' :: e).reverse = e.reverse ++ '.' :: x.reverse := by simp
  rw [hrev, findExtRev_through e.reverse [] x.reverse
    (fun c hc => he c (List.mem_reverse.mp hc))]
  obtain ⟨c, t, hxr, hcd, hcs⟩ := hx
  rw [hxr]
  have htw : ((c :: t).takeWhile (fun x => x != '/')).any (fun x => x != '.') = true := by
    rw [List.takeWhile_cons]
    simp [hcs, hcd]
  rw [htw]
  have hx2 : (c :: t).reverse = x := by rw [← hxr, List.reverse_reverse]
  simp [hx2]

theorem replaceFirst_exact (old new rest : Str) (h : old ≠ []) :
    replaceFirst old new (old ++ rest) = new ++ rest := by
  cases old with
  | nil => exact absurd rfl h
  | cons c t =>
    have hp : (c :: t).isPrefixOf ((c :: t) ++ rest) = true :=
      (isPrefixOfIffPre _ _).mpr ⟨rest, rfl⟩
    show replaceFirst (c :: t) new (c :: (t ++ rest)) = new ++ rest
    rw [replaceFirst]
    simp only [show c :: (t ++ rest) = (c :: t) ++ rest from rfl, hp, if_true]
    rw [List.drop_left]

theorem replaceAllChar_append (o : Char) (nn a b : Str) :
    replaceAllChar o nn (a ++ b) = replaceAllChar o nn a ++ replaceAllChar o nn b := by
  induction a with
  | nil => simp [replaceAllChar]
  | cons c t ih =>
    by_cases hc : c = o
    · simp [replaceAllChar, hc, ih]
    · simp [replaceAllChar, hc, ih]

theorem replaceAllChar_no_occ (o : Char) (nn s : Str) (h : o ∉ s) :
    replaceAllChar o nn s = s := by
  induction s with
  | nil => rfl
  | cons c t ih =>
    have hc : ¬ c = o := fun hh => h (hh ▸ List.mem_cons_self c t)
    rw [replaceAllChar]
    simp [hc, ih (fun hh => h (List.mem_cons_of_mem c hh))]

theorem joinSep_cons_of_ne (sep p : Str) (l : List Str) (h : l ≠ []) :
    joinSep sep (p :: l) = p ++ sep ++ joinSep sep l := by
  cases l with
  | nil => exact absurd rfl h
  | cons q r => rfl

theorem replaceAllChar_joinSep (nn : Str) (parts : List Str)
    (h : ∀ q ∈ parts, '/' ∉ q) :
    replaceAllChar '/' nn (joinSep ['/'] parts) = joinSep nn parts := by
  induction parts with
  | nil => rfl
  | cons p ps ih =>
    cases ps with
    | nil => exact replaceAllChar_no_occ '/' nn p (h p (List.mem_cons_self p []))
    | cons q r =>
      rw [joinSep_cons_of_ne ['/'] p (q :: r) (by simp),
          joinSep_cons_of_ne nn p (q :: r) (by simp)]
      rw [replaceAllChar_append, replaceAllChar_append]
      rw [ih (fun x hx => h x (List.mem_cons_of_mem p hx))]
      rw [replaceAllChar_no_occ '/' nn p (h p (List.mem_cons_self p (q :: r)))]
      rw [show replaceAllChar '/' nn ['/'] = nn ++ [] from by rw [replaceAllChar]; simp [replaceAllChar]]
      simp

theorem joinSep_ends (sep : Str) (ds : List Str) (fn : Str) :
    ∃ pre, joinSep sep (ds ++ [fn]) = pre ++ fn := by
  induction ds with
  | nil => exact ⟨[], by simp [joinSep]⟩
  | cons d ds2 ih =>
    obtain ⟨pre, hp⟩ := ih
    refine ⟨d ++ sep ++ pre, ?_⟩
    rw [show (d :: ds2) ++ [fn] = d :: (ds2 ++ [fn]) from rfl,
        joinSep_cons_of_ne sep d (ds2 ++ [fn]) (by simp), hp]
    simp

/-- Claim C5: for a link target of the form `configs/<dirs...>/<file>.<ext>`
(components without `/`, file and extension also without `.`), the model name
computed by the code — strip `./`, drop the extension, drop the first
`configs/`, flatten `/` into `--` — is the `--`-joined component list. -/
theorem model_name_of_config_target (ds : List Str) (fn ext : Str)
    (hds : ∀ q ∈ ds, '/' ∉ q)
    (hfn : fn ≠ []) (hfn1 : '/' ∉ fn) (hfn2 : '.' ∉ fn)
    (hext : ext ≠ []) (hx1 : '/' ∉ ext) (hx2 : '.' ∉ ext) :
    mnameOfConfig (stripBothChars dotSlash
        (S "configs/" ++ joinSep ['/'] (ds ++ [fn]) ++ '.' :: ext)) =
      joinSep (S "--") (ds ++ [fn]) := by
  obtain ⟨pre, hJ⟩ := joinSep_ends ['/'] ds fn
  set J := joinSep ['/'] (ds ++ [fn]) with hJdef
  have hememb : ∀ c ∈ ext, ¬ c = '.' ∧ ¬ c = '/' :=
    fun c hc => ⟨fun h => hx2 (h ▸ hc), fun h => hx1 (h ▸ hc)⟩
  have hs1 : ∃ c t, (S "configs/" ++ J ++ '.' :: ext) = c :: t ∧ c ∉ dotSlash :=
    ⟨'c', S "onfigs/" ++ J ++ '.' :: ext, rfl, by decide⟩
  have hrev1 : ∃ c t, (S "configs/" ++ J ++ '.' :: ext).reverse = c :: t ∧ c ∉ dotSlash := by
    obtain ⟨c, t, hre, hcm⟩ := reverse_head_mem ext hext
    refine ⟨c, t ++ ['.'] ++ (S "configs/" ++ J).reverse, ?_, ?_⟩
    · rw [show S "configs/" ++ J ++ '.' :: ext = (S "configs/" ++ J) ++ '.' :: ext from by
        simp [List.append_assoc]]
      rw [List.reverse_append]
      rw [show ('.' :: ext).reverse = ext.reverse ++ ['.'] from by simp]
      rw [hre]
      simp
    · intro hmem
      rcases (by simpa [dotSlash] using hmem : c = '.' ∨ c = '/') with h | h
      · exact hx2 (h ▸ hcm)
      · exact hx1 (h ▸ hcm)
  have hstrip : stripBothChars dotSlash (S "configs/" ++ J ++ '.' :: ext) =
      S "configs/" ++ J ++ '.' :: ext := stripBoth_noop dotSlash _ hs1 hrev1
  rw [hstrip]
  unfold mnameOfConfig
  have hx : ∃ c t, (S "configs/" ++ J).reverse = c :: t ∧ ¬ c = '.' ∧ ¬ c = '/' := by
    obtain ⟨c, t, hfr, hcm⟩ := reverse_head_mem fn hfn
    refine ⟨c, t ++ pre.reverse ++ (S "configs/").reverse, ?_,
      fun h => hfn2 (h ▸ hcm), fun h => hfn1 (h ▸ hcm)⟩
    rw [List.reverse_append, hJ, List.reverse_append, hfr]
    simp
  have hsp : splitext ((S "configs/" ++ J) ++ '.' :: ext) = (S "configs/" ++ J, '.' :: ext) :=
    splitext_structured (S "configs/" ++ J) ext hememb hx
  rw [show S "configs/" ++ J ++ '.' :: ext = (S "configs/" ++ J) ++ '.' :: ext from by
    simp [List.append_assoc]]
  rw [hsp]
  rw [show ((S "configs/" ++ J, '.' :: ext) : Str × Str).1 = S "configs/" ++ J from rfl]
  rw [replaceFirst_exact (S "configs/") [] J (by decide)]
  rw [List.nil_append]
  exact replaceAllChar_joinSep (S "--") (ds ++ [fn])
    (fun q hq => by
      rcases List.mem_append.mp hq with h | h
      · exact hds q h
      · rw [List.mem_singleton.mp h]; exact hfn1)

/-- Claim C5 witness: the derivation at the spec's concrete example,
`configs/body/2d_kpt/foo/bar.py ↦ body--2d_kpt--foo--bar`. -/
theorem model_name_witness :
    mnameOfConfig (stripBothChars dotSlash
        (S "configs/" ++ joinSep ['/'] ([S "body", S "2d_kpt", S "foo"] ++ [S "bar"]) ++
          '.' :: S "py")) =
      joinSep (S "--") ([S "body", S "2d_kpt", S "foo"] ++ [S "bar"]) :=
  model_name_of_config_target [S "body", S "2d_kpt", S "foo"] (S "bar") (S "py")
    (by decide) (by decide) (by decide) (by decide) (by decide) (by decide) (by decide)

/-! ## Claim C2: idempotence of a second run -/

/-- Agreement of two filesystems on every path ending in `.md` (the only
paths `parseDoc` reads). -/
def AgreeMd (fs fs' : FS) : Prop :=
  ∀ p : Str, (S ".md") <:+ p → lookupFS fs p = lookupFS fs' p

theorem suffix_eq_of_length (a b l : Str) (ha : a <:+ l) (hb : b <:+ l)
    (hl : a.length = b.length) : a = b := by
  obtain ⟨s, hs⟩ := ha
  obtain ⟨t, ht⟩ := hb
  have hst : s ++ a = t ++ b := hs.trans ht.symm
  have hlen : s.length = t.length := by
    have := congrArg List.length hst
    simp at this
    omega
  exact (List.append_inj hst hlen).2

theorem lookupFS_setF_eq (fs : FS) (k v : Str) : lookupFS (setF fs k v) k = some v := by
  induction fs with
  | nil => simp [setF, lookupFS]
  | cons kv t ih =>
    obtain ⟨a, b⟩ := kv
    by_cases hak : a = k
    · simp [setF, hak, lookupFS]
    · simp [setF, hak, lookupFS, ih]

theorem lookupFS_setF_ne (fs : FS) (k k' v : Str) (h : k' ≠ k) :
    lookupFS (setF fs k v) k' = lookupFS fs k' := by
  have hk : ¬ k = k' := fun hh => h hh.symm
  induction fs with
  | nil => simp [setF, lookupFS, hk]
  | cons kv t ih =>
    obtain ⟨a, b⟩ := kv
    by_cases hak : a = k
    · subst hak
      simp [setF, lookupFS, hk]
    · simp [setF, hak, lookupFS, ih]

theorem setF_self (fs : FS) (k v : Str) (h : lookupFS fs k = some v) : setF fs k v = fs := by
  induction fs with
  | nil => simp [lookupFS] at h
  | cons kv t ih =>
    obtain ⟨a, b⟩ := kv
    by_cases hak : a = k
    · subst hak
      simp [lookupFS] at h
      simp [setF, h]
    · simp [lookupFS, hak] at h
      simp [setF, hak, ih h]

theorem filterKeys_setF (pred : Str → Bool) (fs : FS) (k v : Str) (h : pred k = false) :
    ((setF fs k v).map Prod.fst).filter pred = (fs.map Prod.fst).filter pred := by
  induction fs with
  | nil => simp [setF, h]
  | cons kv t ih =>
    obtain ⟨a, b⟩ := kv
    by_cases hak : a = k
    · subst hak
      simp [setF, List.filter, h]
    · simp [setF, hak, List.filter]
      by_cases hpa : pred a = true
      · simp [hpa, ih]
      · simp only [Bool.not_eq_true] at hpa
        simp [hpa, ih]

theorem globYml_setF (fs : FS) (k v : Str) (h : ymlUnderConfigs k = false) :
    globYml (setF fs k v) = globYml fs := by
  unfold globYml
  rw [filterKeys_setF ymlUnderConfigs fs k v h]

/-- Decomposition of a `.md` path and computation of its output path. -/
theorem md_decomp (p : Str) (h : (S ".md") <:+ p) :
    ∃ s, p = s ++ S ".md" ∧ ymlPathOf p = s ++ S ".yml" := by
  obtain ⟨s, hs⟩ := h
  refine ⟨s, hs.symm, ?_⟩
  rw [← hs]
  unfold ymlPathOf
  have hlen : (s ++ S ".md").length = s.length + 3 := by
    rw [List.length_append]; rfl
  rw [hlen]
  have h2 : s.length + 3 - 2 = s.length + 1 := rfl
  rw [h2, List.take_append 1, List.append_assoc]
  rfl

/-- Output paths of distinct `.md` inputs are distinct. -/
theorem ymlPathOf_inj_md (p q : Str) (hp : (S ".md") <:+ p) (hq : (S ".md") <:+ q)
    (h : ymlPathOf p = ymlPathOf q) : p = q := by
  obtain ⟨s, hs, hos⟩ := md_decomp p hp
  obtain ⟨t, ht, hot⟩ := md_decomp q hq
  rw [hos, hot] at h
  have hlen : s.length = t.length := by
    have := congrArg List.length h
    simp at this
    omega
  rw [hs, ht, (List.append_inj h hlen).1]

/-- No path ending in `.yml` ends in `.md`. -/
theorem not_md_of_yml (s : Str) : ¬ (S ".md") <:+ (s ++ S ".yml") := by
  intro h
  have hy : (S "yml") <:+ (s ++ S ".yml") := by
    refine ⟨s ++ ['.'], ?_⟩
    rw [List.append_assoc]
    rfl
  have := suffix_eq_of_length (S ".md") (S "yml") (s ++ S ".yml") h hy rfl
  exact absurd this (by decide)

/-- The index file path decomposed. -/
theorem modelIndexPath_decomp : modelIndexPath = S "model-index" ++ S ".yml" := rfl

theorem readme_md_suffix (p : Str) : (S ".md") <:+ readmePath p := by
  unfold readmePath joinPath
  by_cases h : taskDirOf p = []
  · simp only [h, if_pos rfl]
    exact ⟨S "README", rfl⟩
  · rw [if_neg h]
    refine ⟨taskDirOf p ++ '/' :: S "README", ?_⟩
    simp
    decide

theorem parseDoc_agree (fs fs' : FS) (p : Str) (hp : (S ".md") <:+ p)
    (hag : AgreeMd fs fs') : parseDoc fs p = parseDoc fs' p := by
  unfold parseDoc
  rw [hag (readmePath p) (readme_md_suffix p), hag p hp]

theorem parse_md_ok_full (dump : YObj → Str) (fs : FS) (p : Str) (fs2 : FS) (b : Bool)
    (w : WriteRec) (h : parse_md dump fs p = .ok (fs2, b, w)) :
    ∃ d, parseDoc fs p = .ok d ∧
      w = ⟨ymlPathOf p, lookupFS fs (ymlPathOf p), dump (.doc d)⟩ ∧
      fs2 = setF fs (ymlPathOf p) (dump (.doc d)) ∧
      b = decide (¬ lookupFS fs (ymlPathOf p) = some (dump (.doc d))) := by
  cases hd : parseDoc fs p with
  | error e => simp [parse_md, hd] at h
  | ok d =>
    refine ⟨d, rfl, ?_⟩
    simp [parse_md, hd, dump_yaml_and_check_difference] at h
    obtain ⟨h1, h2, h3⟩ := h
    subst h1
    subst h3
    refine ⟨rfl, rfl, ?_⟩
    rw [decide_not, h2, Bool.not_not]

/-- The relation between a performed write and the input file it belongs to:
the write targets the input's output path and writes the serialization of the
document parsed from the initial filesystem. -/
def wRel (dump : YObj → Str) (fs0 : FS) (w : WriteRec) (p : Str) : Prop :=
  w.file = ymlPathOf p ∧ ∃ d, parseDoc fs0 p = .ok d ∧ w.new = dump (.doc d)

theorem runFiles_md_run (dump : YObj → Str) (fs0 : FS) :
    ∀ (files : List Str) (fsi fsF : FS) (tr : List WriteRec) (res : Except Err Bool),
      (∀ p ∈ files, (S ".md") <:+ p) → AgreeMd fs0 fsi →
      runFiles dump fsi files = (fsF, tr, res) →
      AgreeMd fs0 fsF ∧
      (∀ k, (∀ p ∈ files, ymlPathOf p ≠ k) → lookupFS fsF k = lookupFS fsi k) ∧
      (∀ m, res = .ok m →
        (∀ p ∈ files, ∃ d, parseDoc fs0 p = .ok d ∧
           lookupFS fsF (ymlPathOf p) = some (dump (.doc d))) ∧
        List.Forall₂ (wRel dump fs0) tr files) := by
  intro files
  induction files with
  | nil =>
    intro fsi fsF tr res hmd hag h
    simp [runFiles] at h
    obtain ⟨h1, h2, h3⟩ := h
    subst h1
    subst h2
    subst h3
    exact ⟨hag, fun k _ => rfl, fun m _ => ⟨by simp, List.Forall₂.nil⟩⟩
  | cons p ps ih =>
    intro fsi fsF tr res hmd hag h
    have hpmd : (S ".md") <:+ p := hmd p (List.mem_cons_self p ps)
    obtain ⟨s, hps, hos⟩ := md_decomp p hpmd
    cases hp : parse_md dump fsi p with
    | error e =>
      simp [runFiles, hp] at h
      obtain ⟨h1, h2, h3⟩ := h
      subst h1
      subst h2
      refine ⟨hag, fun k _ => rfl, fun m hm => ?_⟩
      rw [← h3] at hm
      cases hm
    | ok t =>
      obtain ⟨fsa, b, w⟩ := t
      obtain ⟨d, hdoc, hw, hfsa, hb⟩ := parse_md_ok_full dump fsi p fsa b w hp
      have hdoc0 : parseDoc fs0 p = .ok d := by
        rw [parseDoc_agree fs0 fsi p hpmd hag]
        exact hdoc
      have hagA : AgreeMd fs0 fsa := by
        intro q hq
        rw [hfsa, lookupFS_setF_ne]
        · exact hag q hq
        · intro hqe
          rw [hqe, hos] at hq
          exact not_md_of_yml s hq
      rcases hrec : runFiles dump fsa ps with ⟨fs3, tr2, res2⟩
      obtain ⟨ihag, ihframe, ihok⟩ :=
        ih fsa fs3 tr2 res2 (fun q hq => hmd q (List.mem_cons_of_mem p hq)) hagA hrec
      simp [runFiles, hp, hrec] at h
      obtain ⟨h1, h2, h3⟩ := h
      subst h1
      subst h2
      refine ⟨ihag, ?_, ?_⟩
      · intro k hk
        rw [ihframe k (fun q hq => hk q (List.mem_cons_of_mem p hq)), hfsa,
            lookupFS_setF_ne]
        exact (hk p (List.mem_cons_self p ps)).symm
      · intro m hm
        cases res2 with
        | error e =>
          rw [← h3] at hm
          simp [Except.map] at hm
        | ok m2 =>
          obtain ⟨hpost, hfa⟩ := ihok m2 rfl
          refine ⟨?_, ?_⟩
          · intro q hq
            rcases List.mem_cons.mp hq with hq0 | hq'
            · subst hq0
              by_cases hcol : ∀ r ∈ ps, ymlPathOf r ≠ ymlPathOf q
              · refine ⟨d, hdoc0, ?_⟩
                rw [ihframe (ymlPathOf q) hcol, hfsa, lookupFS_setF_eq]
              · push_neg at hcol
                obtain ⟨r, hr, hre⟩ := hcol
                have hrp : r = q :=
                  ymlPathOf_inj_md r q (hmd r (List.mem_cons_of_mem q hr)) hpmd hre
                obtain ⟨d', hd', hl'⟩ := hpost r hr
                rw [hrp] at hd' hl'
                have hdd : d' = d := by
                  rw [hdoc0] at hd'
                  injection hd' with hde
                  exact hde.symm
                rw [hdd] at hl'
                exact ⟨d, hdoc0, hl'⟩
            · exact hpost q hq'
          · refine List.Forall₂.cons ⟨by rw [hw], d, hdoc0, by rw [hw]⟩ hfa

theorem runFiles_clean (dump : YObj → Str) (fs0 : FS) :
    ∀ (files : List Str) (fs1 : FS),
      (∀ p ∈ files, (S ".md") <:+ p) → AgreeMd fs0 fs1 →
      (∀ p ∈ files, ∃ d, parseDoc fs0 p = .ok d ∧
         lookupFS fs1 (ymlPathOf p) = some (dump (.doc d))) →
      ∃ tr2, runFiles dump fs1 files = (fs1, tr2, .ok false) ∧
        List.Forall₂ (wRel dump fs0) tr2 files := by
  intro files
  induction files with
  | nil => intro fs1 _ _ _; exact ⟨[], rfl, List.Forall₂.nil⟩
  | cons p ps ih =>
    intro fs1 hmd hag hpost
    obtain ⟨d, hd0, hl⟩ := hpost p (List.mem_cons_self p ps)
    have hpmd := hmd p (List.mem_cons_self p ps)
    have hdoc1 : parseDoc fs1 p = .ok d := by
      rw [← parseDoc_agree fs0 fs1 p hpmd hag]
      exact hd0
    have hset : setF fs1 (ymlPathOf p) (dump (.doc d)) = fs1 := setF_self _ _ _ hl
    have hp : parse_md dump fs1 p =
        .ok (fs1, false, ⟨ymlPathOf p, lookupFS fs1 (ymlPathOf p), dump (.doc d)⟩) := by
      simp [parse_md, hdoc1, dump_yaml_and_check_difference, hset, hl]
    obtain ⟨tr2, hrun, hfa⟩ :=
      ih fs1 (fun q hq => hmd q (List.mem_cons_of_mem p hq)) hag
        (fun q hq => hpost q (List.mem_cons_of_mem p hq))
    refine ⟨⟨ymlPathOf p, lookupFS fs1 (ymlPathOf p), dump (.doc d)⟩ :: tr2, ?_, ?_⟩
    · simp [runFiles, hp, hrun, Except.map]
    · exact List.Forall₂.cons ⟨rfl, d, hd0, rfl⟩ hfa

theorem trace_pairs_eq (dump : YObj → Str) (fs0 : FS) :
    ∀ (files : List Str) (tr tr' : List WriteRec),
      List.Forall₂ (wRel dump fs0) tr files → List.Forall₂ (wRel dump fs0) tr' files →
      tr.map (fun w => (w.file, w.new)) = tr'.map (fun w => (w.file, w.new)) := by
  intro files
  induction files with
  | nil =>
    intro tr tr' h h'
    cases h
    cases h'
    rfl
  | cons p ps ih =>
    intro tr tr' h h'
    cases h with
    | cons hw htail =>
      cases h' with
      | cons hw' htail' =>
        obtain ⟨hf, d, hd, hn⟩ := hw
        obtain ⟨hf', d', hd', hn'⟩ := hw'
        have hdd : d' = d := by
          rw [hd] at hd'
          injection hd' with hde
          exact hde.symm
        simp only [List.map_cons]
        rw [ih _ _ htail htail']
        rw [hf, hf', hn, hn', hdd]

/-- Claim C2 (amended): when every input path ends in `.md` and none is
`model-index.md`, a completed run is idempotent: a second run on the resulting
filesystem performs writes to the same files with byte-identical content,
changes nothing, and exits with status 0. -/
theorem second_run_clean_of_md_inputs (dump : YObj → Str) (argv : List Str)
    (fs fs1 : FS) (tr1 : List WriteRec) (c1 : Nat)
    (hmd : ∀ p ∈ argv, (S ".md") <:+ p)
    (hni : (S "model-index.md") ∉ argv)
    (h1 : mainRun dump argv fs = (fs1, tr1, .ok c1)) :
    ∃ tr2, mainRun dump argv fs1 = (fs1, tr2, .ok 0) ∧
      tr2.map (fun w => (w.file, w.new)) = tr1.map (fun w => (w.file, w.new)) := by
  have hmdf : ∀ p ∈ argv.filter (fun p => basenameOf p != S "README.md"), (S ".md") <:+ p :=
    fun p hp => hmd p (List.mem_of_mem_filter hp)
  have hnif : (S "model-index.md") ∉ argv.filter (fun p => basenameOf p != S "README.md") :=
    fun hp => hni (List.mem_of_mem_filter hp)
  by_cases hemp : (argv.filter (fun p => basenameOf p != S "README.md")).isEmpty
  · simp [mainRun, hemp] at h1
    obtain ⟨h2, h3, h4⟩ := h1
    subst h2
    subst h3
    refine ⟨[], ?_, rfl⟩
    simp [mainRun, hemp]
  · rcases hr : runFiles dump fs (argv.filter (fun p => basenameOf p != S "README.md"))
      with ⟨fsA, trA, resA⟩
    cases resA with
    | error e => simp [mainRun, hemp, hr] at h1
    | ok m1 =>
      rcases hu : update_model_index dump fsA with ⟨fsU, m2, wU⟩
      have hu0 : update_model_index dump fsA =
          (setF fsA modelIndexPath (dump (.index (globYml fsA))),
           decide (¬ lookupFS fsA modelIndexPath = some (dump (.index (globYml fsA)))),
           ⟨modelIndexPath, lookupFS fsA modelIndexPath, dump (.index (globYml fsA))⟩) := rfl
      rw [hu] at hu0
      simp only [Prod.mk.injEq] at hu0
      obtain ⟨hfsu, hm2, hwu⟩ := hu0
      simp [mainRun, hemp, hr, hu] at h1
      obtain ⟨hA1, hA2, hA3⟩ := h1
      obtain ⟨hag, hframe, hok⟩ :=
        runFiles_md_run dump fs (argv.filter (fun p => basenameOf p != S "README.md"))
          fs fsA trA (.ok m1) hmdf (fun p _ => rfl) hr
      obtain ⟨hpost, hfaA⟩ := hok m1 rfl
      have hfs1 : fs1 = setF fsA modelIndexPath (dump (.index (globYml fsA))) := by
        rw [← hA1, hfsu]
      have hpost1 : ∀ p ∈ argv.filter (fun p => basenameOf p != S "README.md"),
          ∃ d, parseDoc fs p = .ok d ∧
            lookupFS fs1 (ymlPathOf p) = some (dump (.doc d)) := by
        intro p hp
        obtain ⟨d, hd, hl⟩ := hpost p hp
        refine ⟨d, hd, ?_⟩
        rw [hfs1, lookupFS_setF_ne]
        · exact hl
        · intro he
          obtain ⟨s, hps, hos⟩ := md_decomp p (hmdf p hp)
          rw [hos, modelIndexPath_decomp] at he
          have hsl : s.length = (S "model-index").length := by
            have := congrArg List.length he
            simp at this
            omega
          have hsm := (List.append_inj he hsl).1
          apply hnif
          rw [show (S "model-index.md") = S "model-index" ++ S ".md" from rfl, ← hsm, ← hps]
          exact hp
      have hag1 : AgreeMd fs fs1 := by
        intro q hq
        rw [hfs1, lookupFS_setF_ne]
        · exact hag q hq
        · intro he
          rw [he, modelIndexPath_decomp] at hq
          exact not_md_of_yml _ hq
      obtain ⟨trB, hrunB, hfaB⟩ :=
        runFiles_clean dump fs (argv.filter (fun p => basenameOf p != S "README.md"))
          fs1 hmdf hag1 hpost1
      have hglob : globYml fs1 = globYml fsA := by
        rw [hfs1]
        exact globYml_setF fsA modelIndexPath _ (by decide)
      have hlookI : lookupFS fs1 modelIndexPath = some (dump (.index (globYml fsA))) := by
        rw [hfs1]
        exact lookupFS_setF_eq fsA modelIndexPath _
      have hu2 : update_model_index dump fs1 =
          (setF fs1 modelIndexPath (dump (.index (globYml fs1))),
           decide (¬ lookupFS fs1 modelIndexPath = some (dump (.index (globYml fs1)))),
           ⟨modelIndexPath, lookupFS fs1 modelIndexPath, dump (.index (globYml fs1))⟩) := rfl
      rw [hglob, hlookI, setF_self fs1 modelIndexPath _ hlookI] at hu2
      have hdec : (decide (¬ some (dump (.index (globYml fsA))) =
          some (dump (.index (globYml fsA))))) = false := by simp
      rw [hdec] at hu2
      refine ⟨trB ++ [⟨modelIndexPath, some (dump (.index (globYml fsA))),
        dump (.index (globYml fsA))⟩], ?_, ?_⟩
      · simp [mainRun, hemp, hrunB, hu2]
      · rw [← hA2]
        simp only [List.map_append, List.map_cons, List.map_nil]
        rw [trace_pairs_eq dump fs _ trB trA hfaB hfaA, hwu]

/-- Two input files whose output paths coincide: `configs/x/a.md` and
`configs/x/a.yd` both map to `configs/x/a.yml`, and their parses differ
(different README back-references).  The layout is an ordinary directory tree:
the directory `configs` holds the task README and the subdirectory `x` with
the two input files (both resolve `rsplit('/',3)[0]` to `configs`). -/
def fsC2 : FS :=
  [(S "configs/x/a.md", S "x"), (S "configs/x/a.yd", S "y"),
   (S "configs/README.md", S "# T")]

/-- Claim C2 counterexample: on the unchanged input set
`[configs/x/a.md, configs/x/a.yd]` the second run (on the filesystem the
first run produced) exits with status 1, not 0: both inputs write to
`configs/x/a.yml` with different bytes, so the second run's first write
differs again from the file's content.  So running the tool twice on an
unchanged input set is not idempotent in general. -/
theorem second_run_not_always_clean :
    (mainRun dumpTest [S "configs/x/a.md", S "configs/x/a.yd"] fsC2).2.2 = .ok 1 ∧
      (mainRun dumpTest [S "configs/x/a.md", S "configs/x/a.yd"]
        (mainRun dumpTest [S "configs/x/a.md", S "configs/x/a.yd"] fsC2).1).2.2 = .ok 1 ∧
      (1 : Nat) ≠ 0 :=
  ⟨rfl, rfl, by decide⟩

/-- Claim C2 witness: the amended statement on the concrete run over `fsT`:
the second run exits 0 and repeats the first run's writes byte-for-byte. -/
theorem second_run_witness :
    ∃ tr2, mainRun dumpTest [mdPath] fsT2 = (fsT2, tr2, .ok 0) ∧
      tr2.map (fun w => (w.file, w.new)) =
        (mainRun dumpTest [mdPath] fsT).2.1.map (fun w => (w.file, w.new)) :=
  second_run_clean_of_md_inputs dumpTest [mdPath] fsT fsT2
    (mainRun dumpTest [mdPath] fsT).2.1 1 (by decide) (by decide) rfl
